import Mathlib

/-!
Verification development for the Guess-the-Country game
(`guess_the_country_app.py`).  The mutable per-player state kept by the
framework session store is embedded as an explicit `GameState` record,
and every user action (start round, submit question, submit guess,
submit score, play again) becomes a pure state-transition function
translated line by line from the corresponding handler in the source.
External collaborators (the random draw, the content generator) are
passed in as explicit arguments: the random draw as an index, the
generator response as an `Option`/record value.
-/

namespace GuessCountry

/-- The difficulty selector offers exactly these three values. -/
inductive Difficulty where
  | easy
  | medium
  | hard
deriving DecidableEq, Repr

/-- One record of the country catalog (`countries.json`), with the fields
the app reads.  Missing-key defaults of the Python `dict.get` calls are
taken to be applied at ingestion, so every field is present here. -/
structure CountryRecord where
  name_common : String
  region : String
  population : Nat
  capital : List String
  borders : List String
  landlocked : Bool
  unMember : Bool
  fifa : String
  cca2 : String
  languages : List String
deriving DecidableEq, Repr

/-- Response of `generate_country_info_with_ai` after its fallback: three
lists of strings (empty on generator failure). -/
structure Culture where
  food : List String
  landmark : List String
  festival : List String
deriving DecidableEq, Repr

/-- The `st.session_state.secret` dictionary built by `setup_new_country`. -/
structure Secret where
  name : String
  region : String
  population : String
  capital : String
  coastline : Bool
  neighbors : Nat
  un : Bool
  language : String
  fifa : String
  cca2 : String
  food : List String
  landmark : List String
  festival : List String
deriving DecidableEq, Repr

/-- Failure modes of country selection.  `IndexError` is what
`random.choice` raises on an empty sequence in the source.
`NoEligibleCountry` is the error named by the specification; the embedded
code never produces it, and the constructor exists only so that the
specified behaviour can be stated and compared. -/
inductive PyError where
  | IndexError
  | NoEligibleCountry
deriving DecidableEq, Repr

/-- Python `str.lower`, modelled character by character. -/
def lowerStr (s : String) : String := ⟨s.data.map Char.toLower⟩

/-- Whitespace as recognised by Python `str.strip`. -/
def isSpaceChar (c : Char) : Bool :=
  c == ' ' || c == '\t' || c == '\n' || c == '\r' || c == '\x0b' || c == '\x0c'

/-- Python `str.strip`: drop whitespace from both ends. -/
def stripStr (s : String) : String :=
  ⟨((s.data.dropWhile isSpaceChar).reverse.dropWhile isSpaceChar).reverse⟩

/-- `classify_population` from the source. -/
def classify_population (pop : Nat) : String :=
  if pop < 1000000 then "small"
  else if pop < 30000000 then "medium"
  else "large"

/-- The `target` dictionary of `get_filtered_country_by_difficulty`. -/
def targetOf : Difficulty → String
  | .easy => "large"
  | .medium => "medium"
  | .hard => "small"

/-- `get_filtered_country_by_difficulty` from the source. -/
def get_filtered_country_by_difficulty (difficulty : Difficulty)
    (catalog : List CountryRecord) : List CountryRecord :=
  catalog.filter (fun c => classify_population c.population == targetOf difficulty)

/-- `random.choice`: raises `IndexError` on an empty sequence, otherwise
returns the element at the drawn position (the draw is passed in as `idx`,
reduced modulo the length). -/
def random_choice {α : Type} (l : List α) (idx : Nat) : Except PyError α :=
  match l with
  | [] => Except.error PyError.IndexError
  | x :: xs =>
    Except.ok ((x :: xs).get ⟨idx % (x :: xs).length, Nat.mod_lt idx (Nat.succ_pos xs.length)⟩)

/-- `setup_new_country` from the source: filter by difficulty, draw one
record, and build the secret dictionary.  `culture` is the (already
fallback-handled) response of `generate_country_info_with_ai`. -/
def setup_new_country (difficulty : Difficulty) (catalog : List CountryRecord)
    (idx : Nat) (culture : Culture) : Except PyError Secret :=
  let filtered := get_filtered_country_by_difficulty difficulty catalog
  match random_choice filtered idx with
  | Except.error e => Except.error e
  | Except.ok entry => Except.ok {
      name := entry.name_common
      region := entry.region
      population := classify_population entry.population
      capital := entry.capital.headD "Unknown"
      coastline := !entry.landlocked
      neighbors := entry.borders.length
      un := entry.unMember
      language := entry.languages.headD "Unknown"
      fifa := entry.fifa
      cca2 := entry.cca2
      food := culture.food
      landmark := culture.landmark
      festival := culture.festival }

/-- The framework session store, as one record.  `secret` is `none` before
the first round and after `playAgain` sets it to `None`. -/
structure GameState where
  game_started : Bool
  points : Int
  attempts : Nat
  previous_hints : List String
  answers : List (String × String)
  asked_questions : List String
  leaderboard : List (String × Int)
  secret : Option Secret
  replay_requested : Bool
deriving DecidableEq, Repr

/-- The state installed by the `"game_started" not in st.session_state`
block at the top of the script. -/
def initState : GameState where
  game_started := false
  points := 100
  attempts := 0
  previous_hints := []
  answers := []
  asked_questions := []
  leaderboard := []
  secret := none
  replay_requested := false

/-- `q_map` from the source: the fixed question catalog, in insertion
order, each paired with its answer function over the secret. -/
def q_map : List (String × (Secret → String)) := [
  ("Is it in Europe?", fun c =>
    if lowerStr c.region != "europe" then "No, it\x27s in " ++ c.region
    else "Yes, it\x27s in Europe"),
  ("Is its population small, medium, or large?", fun c => c.population),
  ("Does it have a coastline?", fun c => if c.coastline then "Yes" else "No"),
  ("Does it have more than 3 neighboring countries?", fun c =>
    if c.neighbors > 3 then "Yes" else "No"),
  ("Is it a UN member?", fun c => if c.un then "Yes" else "No"),
  ("What is the country\x27s capital city?", fun c => c.capital),
  ("What is the country\x27s FIFA code?", fun c => c.fifa),
  ("What is the flag?", fun _ => "Here is the flag:")]

/-- Answer function of a question id (`q_map[selected]`); the default
branch is unreachable because callers guard membership first. -/
def q_lookup (qid : String) : Secret → String :=
  match q_map.find? (fun p => p.1 == qid) with
  | some p => p.2
  | none => fun _ => ""

/-- `available = [q for q in q_map if q not in st.session_state.asked_questions]`. -/
def availableQs (s : GameState) : List String :=
  (q_map.map Prod.fst).filter (fun q => !(decide (q ∈ s.asked_questions)))

/-- The Start Game handler (also triggered by `replay_requested`): clear
the replay flag, draw a new secret, reset the per-round lists, and mark
the game started.  Points and attempts are not touched. -/
def startGame (difficulty : Difficulty) (catalog : List CountryRecord)
    (idx : Nat) (culture : Culture) (s : GameState) : Except PyError GameState :=
  match setup_new_country difficulty catalog idx culture with
  | Except.error e => Except.error e
  | Except.ok sec => Except.ok { s with
      replay_requested := false
      secret := some sec
      answers := []
      asked_questions := []
      previous_hints := []
      game_started := true }

/-- The check at the top of the game-logic block: a started game with
points at or below zero is ended immediately (the script then stops). -/
def endIfOutOfPoints (s : GameState) : GameState :=
  if s.game_started = true ∧ s.points ≤ 0 then { s with game_started := false }
  else s

/-- The Submit Question handler.  A selection outside `available` only
shows a warning and changes nothing.  When the secret is unset the Python
answer lambdas raise before any state write (modelled as no change). -/
def submitQuestion (qid : String) (s : GameState) : GameState :=
  if qid ∈ availableQs s then
    match s.secret with
    | none => s
    | some sec =>
      let answer := q_lookup qid sec
      { s with
        answers := s.answers ++ [(qid, answer)]
        asked_questions := s.asked_questions ++ [qid]
        points := s.points - 2 }
  else s

/-- The Submit Guess handler.  `hintResult` is the outcome of the hint
request made in the wrong-guess branch: `none` when the generator call or
its JSON parse fails (the `except` arm), `some h` for a parsed hint.
When the secret is unset the comparison raises before any state write
(modelled as no change). -/
def submitGuess (guess : String) (hintResult : Option String)
    (s : GameState) : GameState :=
  match s.secret with
  | none => s
  | some sec =>
    if lowerStr (stripStr guess) == lowerStr sec.name then
      { s with game_started := false }
    else
      let s1 := { s with attempts := s.attempts + 1, points := s.points - 20 }
      let s2 := if s1.points ≤ 0 then { s1 with game_started := false } else s1
      if s2.attempts ≥ 5 then { s2 with game_started := false }
      else
        match hintResult with
        | none => s2
        | some hint =>
          if ¬ (hint ∈ s2.previous_hints) then
            { s2 with previous_hints := s2.previous_hints ++ [hint] }
          else s2

/-- The Play Again handler: reset points and attempts only if the round
was lost, then clear the secret, request a replay and mark the game not
started.  The rerun it triggers then runs the Start Game block. -/
def playAgain (s : GameState) : GameState :=
  let s1 := if s.points ≤ 0 ∨ s.attempts ≥ 5
    then { s with points := 100, attempts := 0 } else s
  { s1 with secret := none, replay_requested := true, game_started := false }

/-- Python `max` over a nonempty list of scores (the empty case cannot be
reached: callers guard nonemptiness first). -/
def listMax : List Int → Int
  | [] => 0
  | x :: xs => xs.foldl max x

/-- One step of the stable descending insertion used to model Python
`sorted(key=score, reverse=True)`: the new element goes after every
element with an equal or higher score. -/
def insertDesc (x : String × Int) : List (String × Int) → List (String × Int)
  | [] => [x]
  | y :: ys => if x.2 ≤ y.2 then y :: insertDesc x ys else x :: y :: ys

/-- Stable sort, descending by score: fold the entries in order into an
accumulator.  Agrees with Python `sorted(..., key=score, reverse=True)`,
which is stable. -/
def sortDesc (l : List (String × Int)) : List (String × Int) :=
  l.foldl (fun acc x => insertDesc x acc) []

/-- The leaderboard list right before the final sort-and-truncate of the
Submit Score handler: replace the existing entry only on a strictly
higher score, otherwise keep the list; append when the player is new. -/
def updatedBoard (player : String) (s : GameState) : List (String × Int) :=
  let current_score := s.points
  let existing := s.leaderboard.filter (fun e => e.1 == player)
  if existing.isEmpty = false then
    let best_prev := listMax (existing.map Prod.snd)
    if current_score > best_prev then
      (s.leaderboard.filter (fun e => !(e.1 == player))) ++ [(player, current_score)]
    else s.leaderboard
  else s.leaderboard ++ [(player, current_score)]

/-- The Submit Score handler: a falsy (empty) player name short-circuits
the `and` and nothing runs; otherwise the board is updated, re-sorted
descending and truncated to five entries. -/
def submitScore (player : String) (s : GameState) : GameState :=
  if player = "" then s
  else { s with leaderboard := (sortDesc (updatedBoard player s)).take 5 }

/-- One user action processed by the script. -/
inductive Step : GameState → GameState → Prop where
  | start (difficulty : Difficulty) (catalog : List CountryRecord) (idx : Nat)
      (culture : Culture) (s s' : GameState)
      (h : startGame difficulty catalog idx culture s = Except.ok s') : Step s s'
  | stop (s : GameState) : Step s (endIfOutOfPoints s)
  | ask (qid : String) (s : GameState) : Step s (submitQuestion qid s)
  | guess (g : String) (hr : Option String) (s : GameState) :
      Step s (submitGuess g hr s)
  | score (player : String) (s : GameState) : Step s (submitScore player s)
  | replay (s : GameState) : Step s (playAgain s)

/-- States reachable from the fresh session state by user actions. -/
inductive Reachable : GameState → Prop where
  | init : Reachable initState
  | step {s s' : GameState} : Reachable s → Step s s' → Reachable s'

/-- Concrete catalog record used by the witnesses. -/
def cW : CountryRecord where
  name_common := "France"
  region := "Europe"
  population := 68000000
  capital := ["Paris"]
  borders := ["BEL", "DEU"]
  landlocked := false
  unMember := true
  fifa := "FRA"
  cca2 := "FR"
  languages := ["French"]

/-- Concrete generator response used by the witnesses. -/
def cultW : Culture where
  food := ["Baguette"]
  landmark := ["Eiffel Tower"]
  festival := ["Bastille Day"]

/-- The state right after starting a round on the witness catalog. -/
def stB : GameState :=
  ((startGame Difficulty.easy [cW] 0 cultW initState).toOption).getD initState

/-- The secret drawn from the witness catalog. -/
def secW : Secret where
  name := "France"
  region := "Europe"
  population := "large"
  capital := "Paris"
  coastline := true
  neighbors := 2
  un := true
  language := "French"
  fifa := "FRA"
  cca2 := "FR"
  food := ["Baguette"]
  landmark := ["Eiffel Tower"]
  festival := ["Bastille Day"]

/-- Witness scenario state: one question asked after the round start. -/
def stQ1 : GameState := submitQuestion "Is it in Europe?" stB

/-- Witness scenario state: two questions asked after the round start. -/
def stQ2 : GameState := submitQuestion "Does it have a coastline?" stQ1

/-- Membership in the offered-question list. -/
lemma mem_availableQs (s : GameState) (q : String) :
    q ∈ availableQs s ↔ q ∈ q_map.map Prod.fst ∧ ¬ q ∈ s.asked_questions := by
  simp [availableQs]

/-- Members of an insertion are the new element or old members. -/
lemma mem_insertDesc (x z : String × Int) (l : List (String × Int))
    (hz : z ∈ insertDesc x l) : z = x ∨ z ∈ l := by
  induction l with
  | nil => simp [insertDesc] at hz; exact Or.inl hz
  | cons w ws ihw =>
    by_cases hw : x.2 ≤ w.2
    · simp only [insertDesc, if_pos hw, List.mem_cons] at hz
      rcases hz with hz | hz
      · exact Or.inr (by simp [hz])
      · rcases ihw hz with h1 | h1
        · exact Or.inl h1
        · exact Or.inr (by simp [h1])
    · simp only [insertDesc, if_neg hw, List.mem_cons] at hz
      rcases hz with hz | hz | hz
      · exact Or.inl hz
      · exact Or.inr (by simp [hz])
      · exact Or.inr (by simp [hz])

/-- Inserting preserves descending sortedness. -/
lemma pairwise_insertDesc (x : String × Int) (l : List (String × Int))
    (h : l.Pairwise (fun a b => b.2 ≤ a.2)) :
    (insertDesc x l).Pairwise (fun a b => b.2 ≤ a.2) := by
  induction l with
  | nil => simp [insertDesc]
  | cons y ys ih =>
    rcases List.pairwise_cons.mp h with ⟨hy, hys⟩
    by_cases hle : x.2 ≤ y.2
    · simp only [insertDesc, if_pos hle]
      refine List.pairwise_cons.mpr ⟨?_, ih hys⟩
      intro z hz
      rcases mem_insertDesc x z ys hz with rfl | hz2
      · exact hle
      · exact hy z hz2
    · simp only [insertDesc, if_neg hle]
      refine List.pairwise_cons.mpr ⟨?_, h⟩
      intro z hz
      rcases List.mem_cons.mp hz with rfl | hz2
      · exact le_of_lt (lt_of_not_le hle)
      · exact le_trans (hy z hz2) (le_of_lt (lt_of_not_le hle))

/-- The fold of the stable sort keeps the accumulator sorted. -/
lemma pairwise_sortDesc_fold (l acc : List (String × Int))
    (h : acc.Pairwise (fun a b => b.2 ≤ a.2)) :
    (l.foldl (fun a x => insertDesc x a) acc).Pairwise (fun a b => b.2 ≤ a.2) := by
  induction l generalizing acc with
  | nil => simpa using h
  | cons x xs ih => exact ih (insertDesc x acc) (pairwise_insertDesc x acc h)

/-- The stable sort produces a descending list. -/
lemma pairwise_sortDesc (l : List (String × Int)) :
    (sortDesc l).Pairwise (fun a b => b.2 ≤ a.2) :=
  pairwise_sortDesc_fold l [] (by simp)

/-- An element no larger than everything in the list is inserted at the end. -/
lemma insertDesc_of_le (x : String × Int) (l : List (String × Int))
    (h : ∀ y ∈ l, x.2 ≤ y.2) : insertDesc x l = l ++ [x] := by
  induction l with
  | nil => simp [insertDesc]
  | cons y ys ih =>
    have hy : x.2 ≤ y.2 := h y (by simp)
    simp only [insertDesc, if_pos hy, List.cons_append, List.cons.injEq, true_and]
    exact ih (fun z hz => h z (by simp [hz]))

/-- Folding the insert over a list that already extends the sorted
accumulator in order is the identity. -/
lemma sortDesc_fold_sorted_id (l acc : List (String × Int))
    (h : (acc ++ l).Pairwise (fun a b => b.2 ≤ a.2)) :
    l.foldl (fun a x => insertDesc x a) acc = acc ++ l := by
  induction l generalizing acc with
  | nil => simp
  | cons x xs ih =>
    have hx : ∀ y ∈ acc, x.2 ≤ y.2 := by
      intro y hy
      rcases List.pairwise_append.mp h with ⟨_, _, hcross⟩
      exact hcross y hy x (by simp)
    have hins : insertDesc x acc = acc ++ [x] := insertDesc_of_le x acc hx
    have hre : (acc ++ [x]) ++ xs = acc ++ x :: xs := by simp
    calc (x :: xs).foldl (fun a y => insertDesc y a) acc
        = xs.foldl (fun a y => insertDesc y a) (insertDesc x acc) := rfl
      _ = xs.foldl (fun a y => insertDesc y a) (acc ++ [x]) := by rw [hins]
      _ = (acc ++ [x]) ++ xs := ih (acc ++ [x]) (by rw [hre]; exact h)
      _ = acc ++ x :: xs := hre

/-- Sorting an already descending list changes nothing. -/
lemma sortDesc_eq_self (l : List (String × Int))
    (h : l.Pairwise (fun a b => b.2 ≤ a.2)) : sortDesc l = l :=
  sortDesc_fold_sorted_id l [] (by simpa using h)

/-- Every member is bounded by the Python maximum. -/
lemma le_listMax (a : Int) (l : List Int) (h : a ∈ l) : a ≤ listMax l := by
  have hfold : ∀ (xs : List Int) (b : Int), b ≤ xs.foldl max b := by
    intro xs
    induction xs with
    | nil => intro b; simp
    | cons x xs ih => intro b; exact le_trans (le_max_left b x) (ih (max b x))
  have hmem : ∀ (xs : List Int) (b : Int), a ∈ xs → a ≤ xs.foldl max b := by
    intro xs
    induction xs with
    | nil => intro b hb; simp at hb
    | cons x xs ih =>
      intro b hb
      rcases List.mem_cons.mp hb with rfl | hb2
      · exact le_trans (le_max_right b a) (hfold xs (max b a))
      · exact ih (max b x) hb2
  cases l with
  | nil => simp at h
  | cons x xs =>
    rcases List.mem_cons.mp h with rfl | h2
    · exact hfold xs a
    · exact hmem xs x h2

/-- Inserting an element with a different score leaves each equal-score
subsequence untouched. -/
lemma filter_insertDesc_ne (k : Int) (x : String × Int) (l : List (String × Int))
    (hx : ¬ x.2 = k) :
    (insertDesc x l).filter (fun e => e.2 == k) = l.filter (fun e => e.2 == k) := by
  induction l with
  | nil => simp [insertDesc, List.filter_cons, hx]
  | cons y ys ih =>
    by_cases hle : x.2 ≤ y.2
    · simp only [insertDesc, if_pos hle, List.filter_cons, ih]
    · simp only [insertDesc, if_neg hle, List.filter_cons]
      simp [hx]

/-- Inserting an element with score `k` into a descending list appends it
to the equal-score subsequence for `k`. -/
lemma filter_insertDesc_eq (k : Int) (x : String × Int) (l : List (String × Int))
    (hx : x.2 = k) (h : l.Pairwise (fun a b => b.2 ≤ a.2)) :
    (insertDesc x l).filter (fun e => e.2 == k)
      = l.filter (fun e => e.2 == k) ++ [x] := by
  induction l with
  | nil => simp [insertDesc, List.filter_cons, hx]
  | cons y ys ih =>
    rcases List.pairwise_cons.mp h with ⟨hy, hys⟩
    by_cases hle : x.2 ≤ y.2
    · simp only [insertDesc, if_pos hle, List.filter_cons, ih hys]
      by_cases hyk : y.2 = k
      · simp [hyk]
      · simp [hyk]
    · have hlt : y.2 < x.2 := lt_of_not_le hle
      have hnone : (y :: ys).filter (fun e => e.2 == k) = [] := by
        refine List.filter_eq_nil_iff.mpr ?_
        intro z hz
        have hzle : z.2 ≤ y.2 := by
          rcases List.mem_cons.mp hz with rfl | hz2
          · exact le_refl z.2
          · exact hy z hz2
        have : z.2 < k := lt_of_le_of_lt hzle (hx ▸ hlt)
        simp [ne_of_lt this]
      simp only [insertDesc, if_neg hle, List.filter_cons, hnone]
      simp [hx]

/-- The sorting fold preserves each equal-score subsequence in order. -/
lemma filter_sortDesc_fold (k : Int) (l acc : List (String × Int))
    (h : acc.Pairwise (fun a b => b.2 ≤ a.2)) :
    (l.foldl (fun a x => insertDesc x a) acc).filter (fun e => e.2 == k)
      = acc.filter (fun e => e.2 == k) ++ l.filter (fun e => e.2 == k) := by
  induction l generalizing acc with
  | nil => simp
  | cons x xs ih =>
    have hstep := ih (insertDesc x acc) (pairwise_insertDesc x acc h)
    by_cases hxk : x.2 = k
    · calc ((x :: xs).foldl (fun a y => insertDesc y a) acc).filter (fun e => e.2 == k)
          = (insertDesc x acc).filter (fun e => e.2 == k)
              ++ xs.filter (fun e => e.2 == k) := hstep
        _ = (acc.filter (fun e => e.2 == k) ++ [x])
              ++ xs.filter (fun e => e.2 == k) := by
            rw [filter_insertDesc_eq k x acc hxk h]
        _ = acc.filter (fun e => e.2 == k)
              ++ (x :: xs).filter (fun e => e.2 == k) := by
            simp [List.filter_cons, hxk]
    · calc ((x :: xs).foldl (fun a y => insertDesc y a) acc).filter (fun e => e.2 == k)
          = (insertDesc x acc).filter (fun e => e.2 == k)
              ++ xs.filter (fun e => e.2 == k) := hstep
        _ = acc.filter (fun e => e.2 == k)
              ++ xs.filter (fun e => e.2 == k) := by
            rw [filter_insertDesc_ne k x acc hxk]
        _ = acc.filter (fun e => e.2 == k)
              ++ (x :: xs).filter (fun e => e.2 == k) := by
            simp [List.filter_cons, hxk]

/-- Stability of the sort: for every score, the entries carrying that
score appear in the sorted output exactly in their input order. -/
lemma sortDesc_stable (k : Int) (l : List (String × Int)) :
    (sortDesc l).filter (fun e => e.2 == k) = l.filter (fun e => e.2 == k) := by
  have := filter_sortDesc_fold k l [] (by simp)
  simpa [sortDesc] using this

/-- The per-round list invariant: the answers list projects onto the
asked-questions list, and the hint list has no duplicates. -/
def Inv (s : GameState) : Prop :=
  s.answers.map Prod.fst = s.asked_questions ∧ s.previous_hints.Nodup

/-- In every branch, Submit Guess leaves the answers list, the asked list
and the leaderboard alone, and either leaves the hint list alone or
appends one hint that was accepted as new. -/
lemma submitGuess_fields (g : String) (hr : Option String) (s : GameState) :
    (submitGuess g hr s).answers = s.answers ∧
    (submitGuess g hr s).asked_questions = s.asked_questions ∧
    (submitGuess g hr s).leaderboard = s.leaderboard ∧
    ((submitGuess g hr s).previous_hints = s.previous_hints ∨
      ∃ h, hr = some h ∧ ¬ h ∈ s.previous_hints ∧
        (submitGuess g hr s).previous_hints = s.previous_hints ++ [h]) := by
  unfold submitGuess
  cases s.secret with
  | none => simp
  | some sec =>
    by_cases hbeq : (lowerStr (stripStr g) == lowerStr sec.name) = true
    · simp [hbeq]
    · simp only [Bool.not_eq_true] at hbeq
      simp only [hbeq, Bool.false_eq_true, if_false]
      by_cases hp : s.points - 20 ≤ 0
      · simp only [if_pos hp]
        by_cases ha : s.attempts + 1 ≥ 5
        · simp [ha]
        · simp only [if_neg ha]
          cases hr with
          | none => simp
          | some hint =>
            by_cases hmem : hint ∈ s.previous_hints
            · simp [hmem]
            · simp only [hmem, not_false_eq_true, if_true]
              exact ⟨trivial, trivial, trivial, Or.inr ⟨hint, rfl, hmem, by simp⟩⟩
      · simp only [if_neg hp]
        by_cases ha : s.attempts + 1 ≥ 5
        · simp [ha]
        · simp only [if_neg ha]
          cases hr with
          | none => simp
          | some hint =>
            by_cases hmem : hint ∈ s.previous_hints
            · simp [hmem]
            · simp only [hmem, not_false_eq_true, if_true]
              exact ⟨trivial, trivial, trivial, Or.inr ⟨hint, rfl, hmem, by simp⟩⟩

/-- Inverting a successful round start. -/
lemma startGame_ok (difficulty : Difficulty) (catalog : List CountryRecord)
    (idx : Nat) (culture : Culture) (s s' : GameState)
    (h : startGame difficulty catalog idx culture s = Except.ok s') :
    ∃ sec, setup_new_country difficulty catalog idx culture = Except.ok sec ∧
      s' = { s with
        replay_requested := false
        secret := some sec
        answers := []
        asked_questions := []
        previous_hints := []
        game_started := true } := by
  unfold startGame at h
  cases hset : setup_new_country difficulty catalog idx culture with
  | error e => rw [hset] at h; simp at h
  | ok sec =>
    rw [hset] at h
    simp only [Except.ok.injEq] at h
    exact ⟨sec, rfl, h.symm⟩

/-- Each user action preserves the per-round list invariant. -/
lemma inv_step {s s' : GameState} (hinv : Inv s) (hstep : Step s s') : Inv s' := by
  cases hstep with
  | start difficulty catalog idx culture s s' h =>
    rcases startGame_ok difficulty catalog idx culture s s' h with ⟨sec, _, rfl⟩
    exact ⟨rfl, List.nodup_nil⟩
  | stop s =>
    unfold endIfOutOfPoints
    by_cases hc : s.game_started = true ∧ s.points ≤ 0
    · simpa [hc] using hinv
    · simpa [hc] using hinv
  | ask qid s =>
    unfold submitQuestion
    by_cases hav : qid ∈ availableQs s
    · cases hsec : s.secret with
      | none => simpa [hav, hsec] using hinv
      | some sec =>
        simp only [hav, if_true, hsec]
        exact ⟨by simp [hinv.1], hinv.2⟩
    · simpa [hav] using hinv
  | guess g hr s =>
    rcases submitGuess_fields g hr s with ⟨ha, hq, _, hh⟩
    refine ⟨by rw [ha, hq]; exact hinv.1, ?_⟩
    rcases hh with hh | ⟨hint, _, hmem, hh⟩
    · rw [hh]; exact hinv.2
    · rw [hh]
      simp [List.nodup_append, hinv.2, hmem]
  | score player s =>
    unfold submitScore
    by_cases hp : player = ""
    · simpa [hp] using hinv
    · simpa [hp] using hinv
  | replay s =>
    unfold playAgain
    by_cases hc : s.points ≤ 0 ∨ s.attempts ≥ 5
    · simpa [hc] using hinv
    · simpa [hc] using hinv

/-- Every reachable session state satisfies the per-round list invariant. -/
lemma reachable_inv {s : GameState} (h : Reachable s) : Inv s := by
  induction h with
  | init => exact ⟨rfl, List.nodup_nil⟩
  | step _ hstep ih => exact inv_step ih hstep

/-- C3 counterexample: on an empty filtered set, selection fails with the
`IndexError` of `random.choice`, which is not the `NoEligibleCountry`
error the claim requires. -/
theorem c3_counterexample :
    setup_new_country Difficulty.easy [] 0 cultW = Except.error PyError.IndexError ∧
    Except.error PyError.IndexError
      ≠ (Except.error PyError.NoEligibleCountry : Except PyError Secret) := by
  refine ⟨rfl, ?_⟩
  intro h
  simp at h

/-- C3 (amended): for every difficulty and catalog, the filtered set (and
hence any selected country, and the bucket stored in the secret) matches
the bucket required by the difficulty; on an empty filtered set the
selection fails with the unhandled `IndexError` of `random.choice`, not a
signaled `NoEligibleCountry`. -/
theorem c3_amended_thm (difficulty : Difficulty) (catalog : List CountryRecord)
    (idx : Nat) (cult : Culture) :
    (∀ c ∈ get_filtered_country_by_difficulty difficulty catalog,
      classify_population c.population = targetOf difficulty) ∧
    (∀ sec, setup_new_country difficulty catalog idx cult = Except.ok sec →
      sec.population = targetOf difficulty) ∧
    (get_filtered_country_by_difficulty difficulty catalog = [] →
      setup_new_country difficulty catalog idx cult
        = Except.error PyError.IndexError) := by
  have hfil : ∀ c ∈ get_filtered_country_by_difficulty difficulty catalog,
      classify_population c.population = targetOf difficulty := by
    intro c hc
    have := (List.mem_filter.mp hc).2
    exact eq_of_beq this
  refine ⟨hfil, ?_, ?_⟩
  · intro sec hsec
    unfold setup_new_country at hsec
    cases hl : get_filtered_country_by_difficulty difficulty catalog with
    | nil => rw [hl] at hsec; simp [random_choice] at hsec
    | cons x xs =>
      rw [hl] at hsec
      simp only [random_choice, Except.ok.injEq] at hsec
      have hmem : (x :: xs).get
          ⟨idx % (x :: xs).length, Nat.mod_lt idx (Nat.succ_pos xs.length)⟩ ∈ x :: xs :=
        List.get_mem (x :: xs) _ _
      have hmem2 : (x :: xs).get
          ⟨idx % (x :: xs).length, Nat.mod_lt idx (Nat.succ_pos xs.length)⟩
            ∈ get_filtered_country_by_difficulty difficulty catalog := by
        rw [hl]; exact hmem
      have hcl := hfil _ hmem2
      rw [← hsec]
      exact hcl
  · intro hempty
    unfold setup_new_country
    rw [hempty]
    rfl

/-- C3 witness: the amended theorem applied to the singleton catalog and
to the empty catalog. -/
theorem c3_amended_witness :
    classify_population cW.population = targetOf Difficulty.easy ∧
    setup_new_country Difficulty.easy [] 0 cultW = Except.error PyError.IndexError :=
  ⟨(c3_amended_thm Difficulty.easy [cW] 0 cultW).1 cW (by decide),
   (c3_amended_thm Difficulty.easy [] 0 cultW).2.2 rfl⟩

/-- C5: selecting a question id that is already in the asked list, or not
in the fixed catalog, is rejected and leaves the whole session state
unchanged. -/
theorem c5_thm (s : GameState) (qid : String)
    (h : qid ∈ s.asked_questions ∨ ¬ qid ∈ q_map.map Prod.fst) :
    submitQuestion qid s = s := by
  unfold submitQuestion
  rw [if_neg]
  intro hmem
  rcases (mem_availableQs s qid).mp hmem with ⟨hcat, hnot⟩
  rcases h with h | h
  · exact hnot h
  · exact h hcat

/-- C5 witness: re-asking an already asked question changes nothing. -/
theorem c5_thm_witness :
    ("What is the flag?"
        ∈ ({ initState with asked_questions := ["What is the flag?"] }
            : GameState).asked_questions
      ∨ ¬ "What is the flag?" ∈ q_map.map Prod.fst) ∧
    submitQuestion "What is the flag?"
        { initState with asked_questions := ["What is the flag?"] }
      = { initState with asked_questions := ["What is the flag?"] } :=
  ⟨Or.inl (by decide), c5_thm _ _ (Or.inl (by decide))⟩

/-- C6: a guess whose stripped, lowercased text equals the lowercased
secret name ends the in-progress round as won, changing nothing but the
started flag; points and the wrong-guess count are untouched. -/
theorem c6_thm (s : GameState) (sec : Secret) (g : String) (hr : Option String)
    (hsec : s.secret = some sec) (hstarted : s.game_started = true)
    (hpts : 0 < s.points)
    (hmatch : lowerStr (stripStr g) = lowerStr sec.name) :
    submitGuess g hr s = { s with game_started := false } ∧
    (submitGuess g hr s).points = s.points ∧
    (submitGuess g hr s).attempts = s.attempts := by
  have hbeq : (lowerStr (stripStr g) == lowerStr sec.name) = true :=
    beq_iff_eq.mpr hmatch
  have hmain : submitGuess g hr s = { s with game_started := false } := by
    unfold submitGuess
    rw [hsec]
    simp [hbeq]
  exact ⟨hmain, by rw [hmain], by rw [hmain]⟩

/-- C6 witness: guessing " france" against the secret "France". -/
theorem c6_thm_witness :
    stB.secret = some secW ∧ stB.game_started = true ∧ (0 : Int) < stB.points ∧
    lowerStr (stripStr " france") = lowerStr secW.name ∧
    submitGuess " france" none stB = { stB with game_started := false } :=
  ⟨rfl, rfl, by decide, by decide,
    (c6_thm stB secW " france" none rfl rfl (by decide) (by decide)).1⟩

/-- C9: a successful ask deducts exactly 2 points and appends the
(question, answer) pair to the answers list and the id to the asked list. -/
theorem c9_thm (s : GameState) (sec : Secret) (qid : String)
    (hsec : s.secret = some sec) (hav : qid ∈ availableQs s) :
    (submitQuestion qid s).points = s.points - 2 ∧
    (submitQuestion qid s).answers = s.answers ++ [(qid, q_lookup qid sec)] ∧
    (submitQuestion qid s).asked_questions = s.asked_questions ++ [qid] := by
  unfold submitQuestion
  rw [if_pos hav, hsec]
  exact ⟨rfl, rfl, rfl⟩

/-- C9 witness: starting a round at 100 points and asking three distinct
questions leaves exactly 94 points. -/
theorem c9_thm_witness :
    stB.points = 100 ∧ stQ2.points = 96 ∧
    stQ2.secret = some secW ∧ "Is it a UN member?" ∈ availableQs stQ2 ∧
    (submitQuestion "Is it a UN member?" stQ2).points = 94 := by
  refine ⟨by decide, by decide, rfl, by decide, ?_⟩
  have h := c9_thm stQ2 secW "Is it a UN member?" rfl (by decide)
  rw [h.1]
  decide

/-- C10: in every reachable session state the answers list and the
asked-questions list have equal length and agree id by id (the answers
list projects onto the asked list). -/
theorem c10_thm (s : GameState) (hs : Reachable s) :
    s.answers.length = s.asked_questions.length ∧
    s.answers.map Prod.fst = s.asked_questions := by
  have h := (reachable_inv hs).1
  exact ⟨by rw [← h]; simp, h⟩

/-- C10 witness: the reachable state with one question asked. -/
theorem c10_thm_witness :
    Reachable (submitQuestion "Is it in Europe?" stB) ∧
    (submitQuestion "Is it in Europe?" stB).answers.length
      = (submitQuestion "Is it in Europe?" stB).asked_questions.length ∧
    (submitQuestion "Is it in Europe?" stB).answers.map Prod.fst
      = (submitQuestion "Is it in Europe?" stB).asked_questions := by
  have hr : Reachable (submitQuestion "Is it in Europe?" stB) :=
    Reachable.step (Reachable.step Reachable.init
      (Step.start Difficulty.easy [cW] 0 cultW initState stB rfl))
      (Step.ask "Is it in Europe?" stB)
  exact ⟨hr, (c10_thm _ hr).1, (c10_thm _ hr).2⟩

/-- C1 counterexample: in an in-progress session with 20 points, a wrong
guess drops points to 0 and ends the round, yet a hint is still requested
and appended — the claim says no hint is requested in that case. -/
theorem c1_counterexample :
    ({ stB with points := 20 } : GameState).game_started = true ∧
    (0 : Int) < ({ stB with points := 20 } : GameState).points ∧
    ({ stB with points := 20 } : GameState).previous_hints = [] ∧
    (submitGuess "Atlantis" (some "hintA") { stB with points := 20 }).points ≤ 0 ∧
    (submitGuess "Atlantis" (some "hintA") { stB with points := 20 }).game_started
      = false ∧
    (submitGuess "Atlantis" (some "hintA") { stB with points := 20 }).previous_hints
      = ["hintA"] := by
  refine ⟨by decide, by decide, by decide, by decide, by decide, by decide⟩

/-- C1 (amended): a wrong guess in an in-progress session deducts exactly
20 points and increments the wrong-guess count; the round ends exactly
when points drop to 0 or below or the count reaches 5; a hint is
requested (and, if accepted and new, appended) exactly when the count has
not reached 5 — even when the points deduction already ended the round. -/
theorem c1_amended_thm (s : GameState) (sec : Secret) (g : String)
    (hr : Option String) (hsec : s.secret = some sec)
    (hstarted : s.game_started = true) (hpts : 0 < s.points)
    (hwrong : ¬ lowerStr (stripStr g) = lowerStr sec.name) :
    (submitGuess g hr s).points = s.points - 20 ∧
    (submitGuess g hr s).attempts = s.attempts + 1 ∧
    ((submitGuess g hr s).game_started = false
      ↔ (s.points - 20 ≤ 0 ∨ s.attempts + 1 ≥ 5)) ∧
    (s.attempts + 1 ≥ 5 →
      (submitGuess g hr s).previous_hints = s.previous_hints) ∧
    (¬ s.attempts + 1 ≥ 5 →
      (submitGuess g hr s).previous_hints =
        (match hr with
          | none => s.previous_hints
          | some h => if h ∈ s.previous_hints then s.previous_hints
                      else s.previous_hints ++ [h])) := by
  have hbeq : (lowerStr (stripStr g) == lowerStr sec.name) = false :=
    beq_eq_false_iff_ne.mpr hwrong
  unfold submitGuess
  rw [hsec]
  simp only [hbeq, Bool.false_eq_true, if_false]
  by_cases hp : s.points - 20 ≤ 0 <;> by_cases ha : s.attempts + 1 ≥ 5
  · simp [hp, ha]
  · cases hr with
    | none => simp [hp, ha]
    | some hint =>
      by_cases hmem : hint ∈ s.previous_hints
      · simp [hp, ha, hmem]
      · simp [hp, ha, hmem]
  · simp [hp, ha]
  · cases hr with
    | none => simp [hp, ha, hstarted]
    | some hint =>
      by_cases hmem : hint ∈ s.previous_hints
      · simp [hp, ha, hmem, hstarted]
      · simp [hp, ha, hmem, hstarted]

/-- C1 witness: a wrong guess at 100 points and zero prior wrong guesses. -/
theorem c1_amended_witness :
    stB.secret = some secW ∧ stB.game_started = true ∧ (0 : Int) < stB.points ∧
    ¬ lowerStr (stripStr "Atlantis") = lowerStr secW.name ∧
    (submitGuess "Atlantis" (some "hintA") stB).points = stB.points - 20 ∧
    (submitGuess "Atlantis" (some "hintA") stB).attempts = stB.attempts + 1 := by
  have h := c1_amended_thm stB secW "Atlantis" (some "hintA") rfl rfl
    (by decide) (by decide)
  exact ⟨rfl, rfl, by decide, by decide, h.1, h.2.1⟩

/-- C2 counterexample: round start leaves a wrong-guess count of 3 at 3;
the claim says the count is reset to 0. -/
theorem c2_counterexample :
    (startGame Difficulty.easy [cW] 0 cultW
        { initState with attempts := 3 }).map GameState.attempts
      = Except.ok 3 ∧ (3 : Nat) ≠ 0 :=
  ⟨rfl, by decide⟩

/-- C2 (amended): round start resets the asked-questions, hint and answer
lists and draws a new secret country, but touches neither points nor the
wrong-guess count — both always carry over; the LOST-round reset of
points and wrong-guess count happens only in the Play Again action. -/
theorem c2_amended_thm (difficulty : Difficulty) (catalog : List CountryRecord)
    (idx : Nat) (cult : Culture) (s s' : GameState)
    (h : startGame difficulty catalog idx cult s = Except.ok s') :
    s'.asked_questions = [] ∧ s'.previous_hints = [] ∧ s'.answers = [] ∧
    s'.points = s.points ∧ s'.attempts = s.attempts ∧ s'.game_started = true ∧
    ∃ sec, setup_new_country difficulty catalog idx cult = Except.ok sec ∧
      s'.secret = some sec := by
  rcases startGame_ok difficulty catalog idx cult s s' h with ⟨sec, hset, rfl⟩
  exact ⟨rfl, rfl, rfl, rfl, rfl, rfl, sec, hset, rfl⟩

/-- C2 witness: starting a round from the fresh state. -/
theorem c2_amended_witness :
    startGame Difficulty.easy [cW] 0 cultW initState = Except.ok stB ∧
    stB.asked_questions = [] ∧ stB.previous_hints = [] ∧
    stB.points = initState.points ∧ stB.attempts = initState.attempts := by
  have h := c2_amended_thm Difficulty.easy [cW] 0 cultW initState stB rfl
  exact ⟨rfl, h.1, h.2.1, h.2.2.2.1, h.2.2.2.2.1⟩

/-- C4: the complete replay action (the Play Again handler plus the round
start its rerun triggers) resets points to 100 and the wrong-guess count
to 0 after a lost round (points at or below 0, or 5 wrong guesses), and
preserves both otherwise (a won round), resetting the secret country and
the asked, answer and hint lists in both cases. -/
theorem c4_thm (difficulty : Difficulty) (catalog : List CountryRecord)
    (idx : Nat) (cult : Culture) (s s' : GameState)
    (h : startGame difficulty catalog idx cult (playAgain s) = Except.ok s') :
    ((s.points ≤ 0 ∨ s.attempts ≥ 5) → s'.points = 100 ∧ s'.attempts = 0) ∧
    (¬ (s.points ≤ 0 ∨ s.attempts ≥ 5) →
      s'.points = s.points ∧ s'.attempts = s.attempts) ∧
    s'.asked_questions = [] ∧ s'.previous_hints = [] ∧ s'.answers = [] ∧
    s'.leaderboard = s.leaderboard ∧ ∃ sec, s'.secret = some sec := by
  rcases startGame_ok difficulty catalog idx cult (playAgain s) s' h with ⟨sec, _, rfl⟩
  unfold playAgain
  by_cases hc : s.points ≤ 0 ∨ s.attempts ≥ 5
  · simp [hc]
  · simp [hc]

/-- C4 witness: replaying after a round lost on points. -/
theorem c4_thm_witness :
    startGame Difficulty.easy [cW] 0 cultW (playAgain { stB with points := 0 })
      = Except.ok stB ∧
    ({ stB with points := 0 } : GameState).points ≤ 0 ∧
    stB.points = 100 ∧ stB.attempts = 0 := by
  have h := (c4_thm Difficulty.easy [cW] 0 cultW { stB with points := 0 } stB rfl).1
    (Or.inl (by decide))
  exact ⟨rfl, by decide, h.1, h.2⟩

/-- C7 counterexample: a whitespace-only (blank, but not empty) player
name is accepted and inserted; the claim says submit is a no-op for a
blank name. -/
theorem c7_counterexample :
    stripStr " " = "" ∧
    (submitScore " " { initState with leaderboard := [] }).leaderboard
      = [(" ", 100)] ∧
    ([(" ", (100 : Int))] : List (String × Int)) ≠ [] := by
  refine ⟨by decide, by decide, by decide⟩

/-- C7 (amended): score submission is a no-op only when the player name
is the empty string (whitespace-only names are accepted); when an entry
for the name exists with a score at least the new one, the leaderboard is
left unchanged; after every submission the leaderboard has at most 5
entries, sorted descending by score, with ties kept in earlier-inserted
order (the sort preserves each equal-score subsequence). -/
theorem c7_amended_thm (s : GameState) (player : String)
    (hsorted : s.leaderboard.Pairwise (fun a b => b.2 ≤ a.2))
    (hlen : s.leaderboard.length ≤ 5) :
    (player = "" → submitScore player s = s) ∧
    ((∃ e ∈ s.leaderboard, e.1 = player ∧ s.points ≤ e.2) →
      (submitScore player s).leaderboard = s.leaderboard) ∧
    (submitScore player s).leaderboard.Pairwise (fun a b => b.2 ≤ a.2) ∧
    (submitScore player s).leaderboard.length ≤ 5 ∧
    (∀ k : Int, (sortDesc (updatedBoard player s)).filter (fun e => e.2 == k)
      = (updatedBoard player s).filter (fun e => e.2 == k)) := by
  have hfix : ∀ hp : ¬ player = "",
      (submitScore player s).leaderboard = (sortDesc (updatedBoard player s)).take 5 := by
    intro hp
    unfold submitScore
    rw [if_neg hp]
  refine ⟨?_, ?_, ?_, ?_, fun k => sortDesc_stable k _⟩
  · intro hp
    unfold submitScore
    rw [if_pos hp]
  · rintro ⟨e, hmem, hname, hle⟩
    by_cases hp : player = ""
    · unfold submitScore
      rw [if_pos hp]
    · rw [hfix hp]
      have hmemf : e ∈ s.leaderboard.filter (fun x => x.1 == player) :=
        List.mem_filter.mpr ⟨hmem, beq_iff_eq.mpr hname⟩
      have hemp : (s.leaderboard.filter (fun x => x.1 == player)).isEmpty = false := by
        rcases hq : s.leaderboard.filter (fun x => x.1 == player) with _ | ⟨a, l⟩
        · rw [hq] at hmemf; simp at hmemf
        · rw [hq]; rfl
      have hmax : e.2 ≤ listMax ((s.leaderboard.filter
          (fun x => x.1 == player)).map Prod.snd) :=
        le_listMax e.2 _ (List.mem_map_of_mem Prod.snd hmemf)
      have hngt : ¬ s.points > listMax ((s.leaderboard.filter
          (fun x => x.1 == player)).map Prod.snd) :=
        not_lt.mpr (le_trans hle hmax)
      have hboard : updatedBoard player s = s.leaderboard := by
        unfold updatedBoard
        simp only [if_pos hemp, if_neg hngt]
      rw [hboard, sortDesc_eq_self s.leaderboard hsorted,
        List.take_of_length_le hlen]
  · by_cases hp : player = ""
    · unfold submitScore
      rw [if_pos hp]
      exact hsorted
    · rw [hfix hp]
      exact (pairwise_sortDesc (updatedBoard player s)).sublist
        (List.take_sublist 5 (sortDesc (updatedBoard player s)))
  · by_cases hp : player = ""
    · unfold submitScore
      rw [if_pos hp]
      exact hlen
    · rw [hfix hp]
      rw [List.length_take]
      exact Nat.min_le_left 5 _

/-- C7 witness: resubmitting a lower score for an existing entry leaves
the stored 80 in place. -/
theorem c7_amended_witness :
    ([(("Ada" : String), (80 : Int))]).Pairwise
      (fun a b : String × Int => b.2 ≤ a.2) ∧
    (submitScore "Ada"
        { initState with leaderboard := [("Ada", 80)], points := 60 }).leaderboard
      = [("Ada", 80)] := by
  refine ⟨by simp, ?_⟩
  exact (c7_amended_thm { initState with leaderboard := [("Ada", 80)], points := 60 }
      "Ada" (by simp) (by simp)).2.1
    ⟨("Ada", 80), by simp, rfl, by decide⟩

/-- C8: in every reachable session state the hint list has no duplicate
strings, and a generated hint equal to a previous one is rejected with
the hint list left unchanged. -/
theorem c8_thm (s : GameState) (g hint : String) (hs : Reachable s) :
    s.previous_hints.Nodup ∧
    (hint ∈ s.previous_hints →
      (submitGuess g (some hint) s).previous_hints = s.previous_hints) := by
  refine ⟨(reachable_inv hs).2, ?_⟩
  intro hmem
  rcases submitGuess_fields g (some hint) s with ⟨_, _, _, hh | ⟨h2, heq, hnot, _⟩⟩
  · exact hh
  · cases Option.some.inj heq
    exact absurd hmem hnot

/-- C8 witness: a reachable state holding one hint; re-offering the same
hint leaves the list unchanged. -/
theorem c8_thm_witness :
    Reachable (submitGuess "Atlantis" (some "hintA") stB) ∧
    (submitGuess "Atlantis" (some "hintA") stB).previous_hints.Nodup ∧
    ("hintA" ∈ (submitGuess "Atlantis" (some "hintA") stB).previous_hints →
      (submitGuess "wrongTwo" (some "hintA")
          (submitGuess "Atlantis" (some "hintA") stB)).previous_hints
        = (submitGuess "Atlantis" (some "hintA") stB).previous_hints) := by
  have hr : Reachable (submitGuess "Atlantis" (some "hintA") stB) :=
    Reachable.step (Reachable.step Reachable.init
      (Step.start Difficulty.easy [cW] 0 cultW initState stB rfl))
      (Step.guess "Atlantis" (some "hintA") stB)
  have h := c8_thm (submitGuess "Atlantis" (some "hintA") stB) "wrongTwo" "hintA" hr
  exact ⟨hr, h.1, h.2⟩

end GuessCountry
